import Mathlib

/-!
Verification development for the md2page table-of-contents pipeline.

The embedding follows the core generator `TOCGenerator` found in the
repository (the variant exercised by the unit tests: heading selector over
`h1..h6`, `minHeadings = 2`, `generateTOC` returning an array of nested TOC
items, `generateHeadingId` with the 50-character cap and the 0-based
`heading-<index>` fallback, `buildHierarchy` with an explicit stack, and
`setupScrollSpy` with a `requestAnimationFrame`-throttled recomputation).
The stale alternate `src/core/TOCGenerator.js` variant (instance-stateful
id assignment with a numeric-suffix collision loop over `this.headings`)
is embedded separately under the `SrcCore` namespace where a claim cites
it.

Modelling conventions:
* the DOM parse (`document.createElement` / `querySelectorAll`) is
  abstracted away: the input of `generateTOC` is the list of heading
  elements found in document order, each carrying its level (1..6), its
  extracted text content and its pre-existing `id` attribute (`""` when
  absent, as the DOM `id` property reports);
* strings are lists of characters; JavaScript's UTF-16 `length` agrees
  with the character count on the basic multilingual plane, which covers
  every character class the code keeps (`\w` and CJK);
* `String.toLowerCase` is modelled by ASCII lowering (`Char.toLower`);
  the scripts the id-character class keeps are ASCII letters and CJK,
  on which the two agree;
* scroll positions and cached offsets are integers (`Int`), so negative
  scroll positions are representable exactly as in the source.
-/

namespace Md2Page

/-- A heading element as found by `querySelectorAll('h1, …, h6')`, in
document order: its level (from the tag name), its extracted text content
(the result of `extractHeadingText`), and its pre-existing `id` attribute
(`""` when the element has none, matching the DOM `id` property). -/
structure RawHeading where
  level : Nat
  text : String
  preId : String
deriving DecidableEq, Repr

/-- A flat TOC record as produced inside `generateTOC` before
`buildHierarchy` nests them: `{ id, text, level }` (the live `element`
reference is not modelled). -/
structure TocItem where
  id : String
  text : String
  level : Nat
deriving DecidableEq, Repr

/-- The character class kept by `generateHeadingId`'s regex
`[^\w一-龥]+`: `\w` is `[A-Za-z0-9_]` and the CJK range is
U+4E00..U+9FA5. -/
def keepChar (c : Char) : Bool :=
  (c.isAlpha || c.isDigit) || c = '_' || (0x4e00 ≤ c.toNat && c.toNat ≤ 0x9fa5)

/-- Helper for `collapseRuns`: `inRun` records whether the previous
character belonged to a run of non-kept characters (whose hyphen has
already been emitted). -/
def collapseAux : Bool → List Char → List Char
  | _, [] => []
  | inRun, c :: cs =>
    if keepChar c then c :: collapseAux false cs
    else if inRun then collapseAux true cs
    else '-' :: collapseAux true cs

/-- `.replace(/[^\w一-龥]+/g, '-')`: every maximal run of
characters outside the kept class becomes a single hyphen. -/
def collapseRuns (l : List Char) : List Char :=
  collapseAux false l

/-- `.replace(/^-+|-+$/g, '')`: strip leading and trailing hyphen runs. -/
def trimHyphens (l : List Char) : List Char :=
  ((l.dropWhile (· = '-')).reverse.dropWhile (· = '-')).reverse

/-- The normalization chain of `generateHeadingId` (before the
length check): lowercase, collapse non-kept runs to single hyphens, trim
hyphens at both ends, truncate to 50 characters (`substring(0, 50)`). -/
def normalizeHeadingText (text : String) : String :=
  ⟨(trimHyphens (collapseRuns (text.data.map Char.toLower))).take 50⟩

/-- `TOCGenerator.generateHeadingId(text, index)`: empty text falls back
to `heading-<index>` at once; otherwise the normalized candidate is used
unless it is empty or shorter than 2 characters, in which case the same
`heading-<index>` fallback applies. No collision resolution is performed
in this variant. -/
def generateHeadingId (text : String) (index : Nat) : String :=
  if text = "" then "heading-" ++ toString index
  else
    let id := normalizeHeadingText text
    if id.length < 2 then "heading-" ++ toString index else id

/-- An outline node of the generated forest: a TOC item together with its
ordered children (`{ ...item, children: [] }` filled by `buildHierarchy`). -/
inductive Node where
  | mk (item : TocItem) (children : List Node)
deriving Repr

/-- The item stored at a node. -/
def Node.item : Node → TocItem
  | .mk it _ => it

/-- The children list of a node. -/
def Node.children : Node → List Node
  | .mk _ cs => cs

/-- The heading level of a node (its item's level). -/
def Node.level (n : Node) : Nat := n.item.level

/-- An open frame of `buildHierarchy`'s explicit stack: the item pushed
on the stack together with the children attached to it so far.  In the
source the attachment is by mutation of a shared `children` array; here a
frame's node is sealed when the frame is popped, which attaches exactly
the same children in the same order. -/
abbrev Frame := TocItem × List Node

/-- Drop a just-sealed node `n` down the stack: every frame whose level
is `≥ lvl` also closes (receiving `n`, then the previously sealed node,
as its last child); the first frame with level `< lvl` keeps `n` as its
last child; if the whole stack closes, the sealed node becomes a new
root.  This realizes the source's `while (stack.length > 0 &&
stack[stack.length-1].level >= item.level) stack.pop()` combined with the
push-time attachment to `result` or to the new stack top. -/
def sinkNode (lvl : Nat) (n : Node) (roots : List Node) :
    List Frame → List Node × List Frame
  | [] => (roots ++ [n], [])
  | (it, cs) :: rest =>
    if lvl ≤ it.level then sinkNode lvl (Node.mk it (cs ++ [n])) roots rest
    else (roots, (it, cs ++ [n]) :: rest)

/-- Pop every open frame whose level is `≥ lvl`, sealing each popped
frame into a node that is attached below (the stack is kept with its top
at the head). -/
def popGE (lvl : Nat) (roots : List Node) :
    List Frame → List Node × List Frame
  | [] => (roots, [])
  | (it, cs) :: rest =>
    if lvl ≤ it.level then sinkNode lvl (Node.mk it cs) roots rest
    else (roots, (it, cs) :: rest)

/-- One iteration of `buildHierarchy`'s `forEach`: pop the frames at
level `≥ item.level`, then push the item with an empty children list. -/
def stepTOC (acc : List Node × List Frame) (it : TocItem) :
    List Node × List Frame :=
  let p := popGE it.level acc.1 acc.2
  (p.1, (it, []) :: p.2)

/-- Seal a node through all remaining open frames (each one closes,
taking it as last child) until it lands in the root list. -/
def sinkAll (n : Node) (roots : List Node) : List Frame → List Node
  | [] => roots ++ [n]
  | (it, cs) :: rest => sinkAll (Node.mk it (cs ++ [n])) roots rest

/-- After the last item is processed, the frames still open are exactly
the rightmost path of the forest; sealing them bottom-up yields the final
root list (in the source these nodes are already shared references inside
`result`, so no explicit flush appears there). -/
def flushStack (roots : List Node) : List Frame → List Node
  | [] => roots
  | (it, cs) :: rest => sinkAll (Node.mk it cs) roots rest

/-- `TOCGenerator.buildHierarchy(tocItems)`: the explicit-stack
single-pass nesting of a flat, level-tagged item list into a forest. -/
def buildHierarchy (items : List TocItem) : List Node :=
  let st := items.foldl stepTOC ([], [])
  flushStack st.1 st.2

/-- The flat TOC items built inside `generateTOC` (lines mapping each
heading element): the id is `generateHeadingId(text, index)` unless the
element already carries a non-empty `id` attribute, which is kept
verbatim (`if (!heading.id) heading.id = id; … id: heading.id || id`). -/
def tocItemsOf (hs : List RawHeading) : List TocItem :=
  hs.enum.map fun p =>
    let gid := generateHeadingId p.2.text p.1
    { id := if p.2.preId = "" then gid else p.2.preId
      text := p.2.text
      level := p.2.level }

/-- `this.minHeadings = 2`: the minimum heading count below which no
outline is produced. -/
def minHeadings : Nat := 2

/-- `TOCGenerator.generateTOC(htmlContent)` with the DOM parse
abstracted: the input is the list of heading elements found in document
order.  Fewer headings than `minHeadings` yield an empty forest;
otherwise the flat items are nested by `buildHierarchy`. -/
def generateTOCWith (minH : Nat) (hs : List RawHeading) : List Node :=
  if hs.length < minH then [] else buildHierarchy (tocItemsOf hs)

/-- `generateTOC` with the constructor's default `minHeadings = 2`. -/
def generateTOC (hs : List RawHeading) : List Node :=
  generateTOCWith minHeadings hs

/-- Pre-order traversal of a forest: each root's item, then its subtree,
then its right siblings. -/
def preorderForest : List Node → List TocItem
  | [] => []
  | Node.mk it cs :: rest => it :: (preorderForest cs ++ preorderForest rest)
termination_by ns => sizeOf ns
decreasing_by all_goals (simp_wf <;> omega)

/-- Well-formedness of one node: every direct child's level is strictly
greater than its own, recursively. -/
inductive NodeWF : Node → Prop
  | mk (it : TocItem) (cs : List Node)
      (hlt : ∀ c ∈ cs, it.level < c.level)
      (hwf : ∀ c ∈ cs, NodeWF c) : NodeWF (Node.mk it cs)

/-- Well-formedness of a forest: every node in it is well-formed. -/
def ForestWF (ns : List Node) : Prop := ∀ n ∈ ns, NodeWF n

/-! ### Invariants of the explicit stack -/

/-- The item of a sealed node followed by the pre-order of its children. -/
def nodeFlat (n : Node) : List TocItem := n.item :: preorderForest n.children

/-- The items held by the open frames of the stack, in document order
(the bottom of the stack was opened first; the top is at the head). -/
def stackFlat : List Frame → List TocItem
  | [] => []
  | (it, cs) :: rest => stackFlat rest ++ (it :: preorderForest cs)

/-- Document-order flattening of a whole intermediate state. -/
def stateFlat (st : List Node × List Frame) : List TocItem :=
  preorderForest st.1 ++ stackFlat st.2

/-- An open frame is sound when every child attached to it so far is a
well-formed node of strictly larger level. -/
def FrameOK (f : Frame) : Prop := ∀ c ∈ f.2, f.1.level < c.level ∧ NodeWF c

/-- The stack relation: the frame below has a strictly smaller level
than the frame above it (top of stack at the head). -/
def stackRel (a b : Frame) : Prop := b.1.level < a.1.level

/-- A sound intermediate stack: all frames sound and levels strictly
decreasing from top to bottom. -/
def StackOK (stk : List Frame) : Prop :=
  (∀ f ∈ stk, FrameOK f) ∧ List.Chain' stackRel stk

/-! ### Scroll spy: `setupScrollSpy`'s `updateActiveHeading` -/

/-- A heading attached to the scroll spy: its id together with its
vertical offset in the scrollable container (the `elementTop` the code
derives from `getBoundingClientRect`).  Offsets are integers. -/
abbrev SpyHeading := String × Int

/-- The recomputation core of `updateActiveHeading`: iterate the heading
list from the last element down to the first and stop at the first
heading whose top satisfies `scrollTop >= elementTop - offset`; its id is
the active one, and `null` results when no heading qualifies. -/
def updateActiveHeading (headings : List SpyHeading) (scrollTop offset : Int) :
    Option String :=
  (headings.reverse.find? fun h => h.2 - offset ≤ scrollTop).map Prod.fst

/-- `setupScrollSpy`'s listener state: whether the scroll listener is
still attached (the cleanup function removes it) and whether an
animation-frame callback is currently scheduled (the `ticking` flag). -/
structure SpyState where
  attached : Bool
  ticking : Bool
deriving DecidableEq, Repr

/-- The events the scroll spy reacts to: a scroll notification from the
host, the firing of the next animation frame, and the invocation of the
cleanup function returned by `setupScrollSpy`. -/
inductive SpyEvent where
  | scroll
  | frame
  | detach
deriving DecidableEq, Repr

/-- One transition of the scroll-spy listener machinery.  The returned
`Bool` is true exactly when `updateActiveHeading` runs during the event.
`scroll` schedules a recomputation via `requestAnimationFrame` unless one
is already pending (`ticking`); it does nothing once the listener is
removed.  `frame` runs the pending recomputation — the cleanup function
only calls `removeEventListener`, so a frame already requested still
fires after detachment.  `detach` removes the scroll listener and leaves
any pending frame request in place. -/
def spyStep (s : SpyState) : SpyEvent → SpyState × Bool
  | .scroll =>
    if s.attached && !s.ticking then (⟨s.attached, true⟩, false)
    else (s, false)
  | .frame =>
    if s.ticking then (⟨s.attached, false⟩, true) else (s, false)
  | .detach => (⟨false, s.ticking⟩, false)

/-- Run a sequence of events, counting how many recomputations fire. -/
def spyRun (s : SpyState) : List SpyEvent → SpyState × Nat
  | [] => (s, 0)
  | e :: es =>
    let p := spyStep s e
    let q := spyRun p.1 es
    (q.1, (if p.2 then 1 else 0) + q.2)

/-- The per-recomputation emission of `setupScrollSpy`: after computing
the active heading, `updateActiveHeading` invokes
`updateTOCActiveState(activeHeading ? activeHeading.id : null, …)`
unconditionally — the previously held id (`cur`) is not consulted.  The
returned `Bool` records whether the highlight state was (re)applied. -/
def spyRecompute (headings : List SpyHeading) (scrollTop offset : Int)
    (_cur : Option String) : Option String × Bool :=
  (updateActiveHeading headings scrollTop offset, true)

/-- The deduplicating update of the `TableOfContents` component variant
(`if (activeId !== this.currentActiveId) this.setActiveHeading(activeId)`):
the highlight is touched, and `currentActiveId` rewritten, only when the
computed id differs from the held one.  The returned `Bool` records
whether `setActiveHeading` ran. -/
def componentActiveUpdate (computed cur : Option String) :
    Option String × Bool :=
  if computed = cur then (cur, false) else (computed, true)

/-! ### The stale `src/core/TOCGenerator.js` variant

This alternate `TOCGenerator` keeps the extracted headings in
`this.headings` and resolves id collisions with a numeric-suffix loop
over that list.  `generateTOC` assigns `this.headings` only after
`extractHeadings` returns, so during one pass the collision loop sees the
PREVIOUS pass's ids, never the ids already assigned in the current pass. -/


end Md2Page

namespace SrcCore

open Md2Page

/-- The character class kept by this variant's first regex,
`[^\w一-龥\s-]` (letters, digits, underscore, CJK, whitespace,
hyphen); characters outside it are deleted, not replaced. -/
def keptChar (c : Char) : Bool :=
  keepChar c || c = '-' || c.toNat = 0x20 || c.toNat = 0x9 || c.toNat = 0xa ||
    c.toNat = 0xd || c.toNat = 0xc || c.toNat = 0xb

/-- Whitespace for the `\s+ → '-'` replacement step. -/
def isSpaceChar (c : Char) : Bool :=
  c.toNat = 0x20 || c.toNat = 0x9 || c.toNat = 0xa || c.toNat = 0xd ||
    c.toNat = 0xc || c.toNat = 0xb

/-- `.replace(/\s+/g, '-')`: each maximal whitespace run becomes one
hyphen (`inRun` tracks an open run). -/
def spacesToHyphens : Bool → List Char → List Char
  | _, [] => []
  | inRun, c :: cs =>
    if isSpaceChar c then
      if inRun then spacesToHyphens true cs
      else '-' :: spacesToHyphens true cs
    else c :: spacesToHyphens false cs

/-- The hyphen-run replacement (regex `-+` to `-`): collapse hyphen runs
to a single hyphen. -/
def collapseHyphens : Bool → List Char → List Char
  | _, [] => []
  | inRun, c :: cs =>
    if c = '-' then
      if inRun then collapseHyphens true cs
      else '-' :: collapseHyphens true cs
    else c :: collapseHyphens false cs

/-- This variant's normalization: lowercase, delete characters outside
the kept class, whitespace runs to hyphens, collapse hyphen runs, trim
leading/trailing hyphens.  No length cap. -/
def normalize (text : String) : String :=
  ⟨trimHyphens (collapseHyphens false
      (spacesToHyphens false ((text.data.map Char.toLower).filter keptChar)))⟩

/-- The collision loop of this variant's `generateHeadingId`: try the
base id, then `<id>-1`, `<id>-2`, … until a candidate is not in
`existingIds` — which is `this.headings.map(h => h.id)` and therefore
the PREVIOUS pass's id list.  The loop always terminates because the
suffixed candidates are pairwise distinct and the seen list is finite;
searching the first `existingIds.length + 1` suffixes is exhaustive. -/
def resolveCollision (existingIds : List String) (id : String) : String :=
  if !existingIds.contains id then id
  else
    match (List.range (existingIds.length + 1)).find?
        (fun k => !existingIds.contains (id ++ "-" ++ toString (k + 1))) with
    | some k => id ++ "-" ++ toString (k + 1)
    | none => id

/-- This variant's `generateHeadingId(text, index)`: normalize, fall back
to `heading-<index+1>` when empty or under 2 characters, then resolve
collisions against `existingIds`. -/
def generateHeadingId (existingIds : List String) (text : String)
    (index : Nat) : String :=
  let base :=
    let id := normalize text
    if id.length < 2 then "heading-" ++ toString (index + 1) else id
  resolveCollision existingIds base

/-- This variant's `extractHeadings` under the default options
(`minLevel 1`, `maxLevel 6`, no include/exclude lists, `addIds` true):
headings with empty text are skipped, a pre-existing element id is kept
verbatim, and generated ids consult only `prevIds`, the id list of the
instance's previous pass (`this.headings` is reassigned only after
extraction finishes). -/
def extractHeadings (prevIds : List String) (hs : List RawHeading) :
    List TocItem :=
  hs.enum.filterMap fun p =>
    if p.2.level < 1 || 6 < p.2.level then none
    else if p.2.text = "" then none
    else some
      { id := if p.2.preId = "" then generateHeadingId prevIds p.2.text p.1
              else p.2.preId
        text := p.2.text
        level := p.2.level }

/-- This variant's `generateTOC` as a state transformer on the instance:
the result headings plus the new `this.headings` id list that the next
pass's collision loop will consult. -/
def generateTOCStateful (prevIds : List String) (hs : List RawHeading) :
    List TocItem × List String :=
  let headings := extractHeadings prevIds hs
  (headings, headings.map TocItem.id)

end SrcCore

namespace Md2Page


/-- The instance state of the tested `TOCGenerator` that `generateTOC`
can read: the configured minimum heading count (`this.minHeadings`).
`generateTOC` writes no instance field that later passes read, which this
state-passing embedding makes explicit. -/
structure GenState where
  minHeadings : Nat
deriving DecidableEq, Repr

/-- `generateTOC` as a run on the instance: returns the forest together
with the (unchanged) instance state. -/
def generateTOCRun (st : GenState) (hs : List RawHeading) :
    List Node × GenState :=
  (generateTOCWith st.minHeadings hs, st)

/-! ### Properties -/


theorem preorderForest_append (a b : List Node) :
    preorderForest (a ++ b) = preorderForest a ++ preorderForest b := by
  induction a with
  | nil => simp [preorderForest]
  | cons n rest ih => cases n; simp [preorderForest, ih]

theorem preorderForest_singleton (n : Node) :
    preorderForest [n] = nodeFlat n := by
  cases n; simp [preorderForest, nodeFlat, Node.item, Node.children]

theorem sinkNode_flat (stk : List Frame) (lvl : Nat) (n : Node)
    (roots : List Node) :
    stateFlat (sinkNode lvl n roots stk) =
      preorderForest roots ++ stackFlat stk ++ nodeFlat n := by
  induction stk generalizing n with
  | nil =>
    simp [sinkNode, stateFlat, stackFlat, preorderForest_append,
      preorderForest_singleton]
  | cons f rest ih =>
    obtain ⟨it, cs⟩ := f
    by_cases h : lvl ≤ it.level
    · simp only [sinkNode, if_pos h, ih]
      simp [nodeFlat, Node.item, Node.children, preorderForest_append,
        preorderForest_singleton, stackFlat]
    · simp [sinkNode, if_neg h, stateFlat, stackFlat, nodeFlat,
        preorderForest_append, preorderForest_singleton]

theorem popGE_flat (lvl : Nat) (roots : List Node) (stk : List Frame) :
    stateFlat (popGE lvl roots stk) = preorderForest roots ++ stackFlat stk := by
  cases stk with
  | nil => simp [popGE, stateFlat, stackFlat]
  | cons f rest =>
    obtain ⟨it, cs⟩ := f
    by_cases h : lvl ≤ it.level
    · simp only [popGE, if_pos h, sinkNode_flat]
      simp [nodeFlat, Node.item, Node.children, stackFlat]
    · simp [popGE, if_neg h, stateFlat, stackFlat]

theorem sinkAll_flat (stk : List Frame) (n : Node) (roots : List Node) :
    preorderForest (sinkAll n roots stk) =
      preorderForest roots ++ stackFlat stk ++ nodeFlat n := by
  induction stk generalizing n with
  | nil =>
    simp [sinkAll, stackFlat, preorderForest_append, preorderForest_singleton]
  | cons f rest ih =>
    obtain ⟨it, cs⟩ := f
    simp only [sinkAll, ih]
    simp [nodeFlat, Node.item, Node.children, preorderForest_append,
      preorderForest_singleton, stackFlat]

theorem flushStack_flat (roots : List Node) (stk : List Frame) :
    preorderForest (flushStack roots stk) =
      preorderForest roots ++ stackFlat stk := by
  cases stk with
  | nil => simp [flushStack, stackFlat]
  | cons f rest =>
    obtain ⟨it, cs⟩ := f
    simp only [flushStack, sinkAll_flat]
    simp [nodeFlat, Node.item, Node.children, stackFlat]

theorem stepTOC_flat (acc : List Node × List Frame) (it : TocItem) :
    stateFlat (stepTOC acc it) = stateFlat acc ++ [it] := by
  have h := popGE_flat it.level acc.1 acc.2
  simp only [stepTOC, stateFlat, stackFlat] at *
  rw [← h]
  simp [preorderForest]

theorem foldl_stepTOC_flat (items : List TocItem)
    (acc : List Node × List Frame) :
    stateFlat (items.foldl stepTOC acc) = stateFlat acc ++ items := by
  induction items generalizing acc with
  | nil => simp
  | cons it rest ih => simp [List.foldl_cons, ih, stepTOC_flat]

/-- Pre-order of the built forest is exactly the input sequence. -/
theorem preorderForest_buildHierarchy (items : List TocItem) :
    preorderForest (buildHierarchy items) = items := by
  have h := foldl_stepTOC_flat items ([], [])
  simp only [buildHierarchy, flushStack_flat]
  simpa [stateFlat, stackFlat, preorderForest] using h

theorem nodeWF_mk_of_frame {it : TocItem} {cs : List Node}
    (h : FrameOK (it, cs)) : NodeWF (Node.mk it cs) :=
  NodeWF.mk it cs (fun c hc => (h c hc).1) (fun c hc => (h c hc).2)

theorem stackOK_nil : StackOK [] := ⟨by intro f hf; simp at hf, by simp⟩

theorem stackOK_cons {f : Frame} {rest : List Frame}
    (h : StackOK (f :: rest)) :
    FrameOK f ∧ StackOK rest ∧ ∀ g ∈ rest.head?, g.1.level < f.1.level := by
  obtain ⟨hmem, hchain⟩ := h
  obtain ⟨hhd, htl⟩ := List.chain'_cons'.1 hchain
  exact ⟨hmem f (by simp), ⟨fun g hg => hmem g (by simp [hg]), htl⟩,
    fun g hg => hhd g hg⟩

theorem stackOK_cons_of {f : Frame} {rest : List Frame}
    (hf : FrameOK f) (hrest : StackOK rest)
    (hhd : ∀ g ∈ rest.head?, g.1.level < f.1.level) :
    StackOK (f :: rest) := by
  refine ⟨?_, List.chain'_cons'.2 ⟨fun g hg => hhd g hg, hrest.2⟩⟩
  intro g hg
  rcases List.mem_cons.1 hg with hg | hg
  · rw [hg]; exact hf
  · exact hrest.1 g hg

theorem frameOK_append {it : TocItem} {cs : List Node} {n : Node}
    (h : FrameOK (it, cs)) (hn : NodeWF n) (hlt : it.level < n.level) :
    FrameOK (it, cs ++ [n]) := by
  intro c hc
  rcases List.mem_append.1 hc with hcl | hcl
  · exact h c hcl
  · rw [List.mem_singleton.1 hcl]
    exact ⟨by simpa [Node.level] using hlt, hn⟩

theorem forestWF_append_singleton {roots : List Node} {n : Node}
    (hroots : ForestWF roots) (hn : NodeWF n) : ForestWF (roots ++ [n]) := by
  intro m hm
  rcases List.mem_append.1 hm with h | h
  · exact hroots m h
  · rw [List.mem_singleton.1 h]; exact hn

theorem sinkNode_ok (stk : List Frame) (lvl : Nat) (n : Node)
    (roots : List Node)
    (hn : NodeWF n) (hlvl : lvl ≤ n.level)
    (hroots : ForestWF roots) (hstk : StackOK stk)
    (hhead : ∀ f ∈ stk.head?, f.1.level < n.level) :
    ForestWF (sinkNode lvl n roots stk).1 ∧
      StackOK (sinkNode lvl n roots stk).2 ∧
      ∀ f ∈ (sinkNode lvl n roots stk).2.head?, f.1.level < lvl := by
  induction stk generalizing n with
  | nil =>
    simp only [sinkNode]
    exact ⟨forestWF_append_singleton hroots hn, stackOK_nil, by simp⟩
  | cons f rest ih =>
    obtain ⟨it, cs⟩ := f
    obtain ⟨hfr, hrest, hhd⟩ := stackOK_cons hstk
    have hit : it.level < n.level := hhead (it, cs) (by simp)
    by_cases h : lvl ≤ it.level
    · simp only [sinkNode, if_pos h]
      have hfr' : FrameOK (it, cs ++ [n]) := frameOK_append hfr hn hit
      refine ih (Node.mk it (cs ++ [n])) (nodeWF_mk_of_frame hfr')
        (by simpa [Node.level, Node.item] using h) hrest ?_
      intro g hg
      simpa [Node.level, Node.item, stackRel] using hhd g hg
    · simp only [sinkNode, if_neg h]
      have hfr' : FrameOK (it, cs ++ [n]) := frameOK_append hfr hn hit
      refine ⟨hroots, stackOK_cons_of hfr' hrest (fun g hg => hhd g hg), ?_⟩
      intro g hg
      simp only [List.head?_cons, Option.mem_def, Option.some.injEq] at hg
      rw [← hg]
      exact Nat.lt_of_not_le h

theorem popGE_ok (lvl : Nat) (roots : List Node) (stk : List Frame)
    (hroots : ForestWF roots) (hstk : StackOK stk) :
    ForestWF (popGE lvl roots stk).1 ∧ StackOK (popGE lvl roots stk).2 ∧
      ∀ f ∈ (popGE lvl roots stk).2.head?, f.1.level < lvl := by
  cases stk with
  | nil => exact ⟨hroots, stackOK_nil, by simp [popGE]⟩
  | cons f rest =>
    obtain ⟨it, cs⟩ := f
    obtain ⟨hfr, hrest, hhd⟩ := stackOK_cons hstk
    by_cases h : lvl ≤ it.level
    · simp only [popGE, if_pos h]
      refine sinkNode_ok rest lvl (Node.mk it cs) roots
        (nodeWF_mk_of_frame hfr) (by simpa [Node.level, Node.item] using h)
        hroots hrest ?_
      intro g hg
      simpa [Node.level, Node.item, stackRel] using hhd g hg
    · simp only [popGE, if_neg h]
      refine ⟨hroots, hstk, ?_⟩
      intro g hg
      simp only [List.head?_cons, Option.mem_def, Option.some.injEq] at hg
      rw [← hg]
      exact Nat.lt_of_not_le h

theorem stepTOC_ok (acc : List Node × List Frame) (it : TocItem)
    (hroots : ForestWF acc.1) (hstk : StackOK acc.2) :
    ForestWF (stepTOC acc it).1 ∧ StackOK (stepTOC acc it).2 := by
  obtain ⟨h1, h2, h3⟩ := popGE_ok it.level acc.1 acc.2 hroots hstk
  exact ⟨h1, stackOK_cons_of (by intro c hc; simp at hc) h2
    (fun g hg => h3 g hg)⟩

theorem sinkAll_ok (stk : List Frame) (n : Node) (roots : List Node)
    (hn : NodeWF n) (hroots : ForestWF roots) (hstk : StackOK stk)
    (hhead : ∀ f ∈ stk.head?, f.1.level < n.level) :
    ForestWF (sinkAll n roots stk) := by
  induction stk generalizing n with
  | nil =>
    simp only [sinkAll]
    exact forestWF_append_singleton hroots hn
  | cons f rest ih =>
    obtain ⟨it, cs⟩ := f
    obtain ⟨hfr, hrest, hhd⟩ := stackOK_cons hstk
    have hit : it.level < n.level := hhead (it, cs) (by simp)
    simp only [sinkAll]
    refine ih (Node.mk it (cs ++ [n]))
      (nodeWF_mk_of_frame (frameOK_append hfr hn hit)) hrest ?_
    intro g hg
    simpa [Node.level, Node.item, stackRel] using hhd g hg

theorem flushStack_ok (roots : List Node) (stk : List Frame)
    (hroots : ForestWF roots) (hstk : StackOK stk) :
    ForestWF (flushStack roots stk) := by
  cases stk with
  | nil => exact hroots
  | cons f rest =>
    obtain ⟨it, cs⟩ := f
    obtain ⟨hfr, hrest, hhd⟩ := stackOK_cons hstk
    refine sinkAll_ok rest (Node.mk it cs) roots (nodeWF_mk_of_frame hfr)
      hroots hrest ?_
    intro g hg
    simpa [Node.level, Node.item, stackRel] using hhd g hg

theorem foldl_stepTOC_ok (items : List TocItem)
    (acc : List Node × List Frame)
    (hroots : ForestWF acc.1) (hstk : StackOK acc.2) :
    ForestWF (items.foldl stepTOC acc).1 ∧
      StackOK (items.foldl stepTOC acc).2 := by
  induction items generalizing acc with
  | nil => exact ⟨hroots, hstk⟩
  | cons it rest ih =>
    obtain ⟨h1, h2⟩ := stepTOC_ok acc it hroots hstk
    simpa [List.foldl_cons] using ih (stepTOC acc it) h1 h2

/-- The forest built by `buildHierarchy` is level-well-formed. -/
theorem buildHierarchy_wf (items : List TocItem) :
    ForestWF (buildHierarchy items) := by
  obtain ⟨h1, h2⟩ := foldl_stepTOC_ok items ([], []) (by intro n hn; simp at hn)
    stackOK_nil
  exact flushStack_ok _ _ h1 h2

/-! ### Characterization of the scroll-spy recomputation -/

/-- With offsets strictly increasing in document order, the
last-to-first scan of `updateActiveHeading` returns the eligible heading
of maximal offset, and `none` exactly when no heading is eligible
(`eligible` meaning `offset ≤ scrollTop + threshold`). -/
theorem updateActiveHeading_spec (headings : List SpyHeading) (s t : Int)
    (hsorted : headings.Pairwise (fun a b => a.2 < b.2)) :
    (∀ id, updateActiveHeading headings s t = some id →
      ∃ h ∈ headings, h.1 = id ∧ h.2 ≤ s + t ∧
        ∀ h' ∈ headings, h'.2 ≤ s + t → h'.2 ≤ h.2) ∧
    (updateActiveHeading headings s t = none →
      ∀ h ∈ headings, s + t < h.2) := by
  induction headings using List.reverseRecOn with
  | nil => exact ⟨fun id h => by simp [updateActiveHeading] at h,
      fun _ h hh => by simp at hh⟩
  | append_singleton l a ih =>
    obtain ⟨hl, -, hla⟩ := List.pairwise_append.1 hsorted
    have hlt : ∀ x ∈ l, x.2 < a.2 := fun x hx => hla x hx a (by simp)
    have hrev : (l ++ [a]).reverse = a :: l.reverse := by simp
    by_cases hp : a.2 - t ≤ s
    · have ha : a.2 ≤ s + t := by omega
      have hfind : updateActiveHeading (l ++ [a]) s t = some a.1 := by
        unfold updateActiveHeading
        rw [hrev, List.find?_cons_of_pos _ (by simpa using hp)]
        rfl
      constructor
      · intro id hid
        rw [hfind] at hid
        refine ⟨a, by simp, Option.some.inj hid, ha, ?_⟩
        intro h' hh' _
        rcases List.mem_append.1 hh' with h | h
        · exact le_of_lt (hlt h' h)
        · rw [List.mem_singleton.1 h]
      · intro hnone
        rw [hfind] at hnone
        exact absurd hnone (by simp)
    · have ha : s + t < a.2 := by omega
      have hstep : updateActiveHeading (l ++ [a]) s t =
          updateActiveHeading l s t := by
        unfold updateActiveHeading
        rw [hrev, List.find?_cons_of_neg _ (by simpa using hp)]
      obtain ⟨ihs, ihn⟩ := ih hl
      constructor
      · intro id hid
        rw [hstep] at hid
        obtain ⟨h, hmem, hid', hel, hmax⟩ := ihs id hid
        refine ⟨h, List.mem_append.2 (Or.inl hmem), hid', hel, ?_⟩
        intro h' hh' hel'
        rcases List.mem_append.1 hh' with hc | hc
        · exact hmax h' hc hel'
        · rw [List.mem_singleton.1 hc] at hel'
          omega
      · intro hnone h hh
        rw [hstep] at hnone
        rcases List.mem_append.1 hh with hc | hc
        · exact ihn hnone h hc
        · rw [List.mem_singleton.1 hc]
          exact ha

/-- The scroll-spy machine never recomputes more than the one pending
frame once the listener is detached, and never recomputes at all when no
frame was pending at detachment. -/
theorem spyRun_detached_bound (es : List SpyEvent) (s : SpyState)
    (hdet : s.attached = false) :
    (spyRun s es).2 ≤ if s.ticking then 1 else 0 := by
  induction es generalizing s with
  | nil => simp [spyRun]
  | cons e es ih =>
    cases e with
    | scroll =>
      have hstep : spyStep s .scroll = (s, false) := by
        simp [spyStep, hdet]
      simp only [spyRun, hstep]
      simpa using ih s hdet
    | frame =>
      by_cases hT : s.ticking
      · have hstep : spyStep s .frame = (⟨s.attached, false⟩, true) := by
          simp [spyStep, hT]
        simp only [spyRun, hstep]
        have := ih ⟨s.attached, false⟩ (by simpa using hdet)
        simp at this
        simp [hT, this]
      · have hstep : spyStep s .frame = (s, false) := by
          simp [spyStep, hT]
        simp only [spyRun, hstep]
        simpa using ih s hdet
    | detach =>
      have hstep : spyStep s .detach = (⟨false, s.ticking⟩, false) := by
        simp [spyStep]
      simp only [spyRun, hstep]
      have := ih ⟨false, s.ticking⟩ rfl
      simpa using this

/-- `generateHeadingId` in closed form: the fallback `heading-<index>`
applies exactly when the normalized candidate is shorter than 2
characters (empty input text normalizes to the empty candidate, so the
early `!text` return is subsumed). -/
theorem generateHeadingId_eq (text : String) (index : Nat) :
    generateHeadingId text index =
      if (normalizeHeadingText text).length < 2
      then "heading-" ++ toString index
      else normalizeHeadingText text := by
  unfold generateHeadingId
  by_cases h : text = ""
  · subst h
    have hnorm : normalizeHeadingText "" = "" := rfl
    rw [hnorm]
    simp
  · simp [h]

/-! ### Claims -/

/-- C1. The claim states that the ids assigned within one
`generateTOC` pass are pairwise distinct.  The code violates it: with
two headings of equal text (levels 1 and 2, texts both `Test`), the
tested generator assigns the id `test` to both (its `generateHeadingId`
performs no collision check), and the alternate `src/core` variant also
assigns `test` twice because its collision loop consults the id list of
the instance's previous pass (empty on a fresh instance) instead of the
ids already assigned in the current pass — contradicting its own
"ensure ID uniqueness" comment. -/
theorem claim_C1_duplicate_ids_on_equal_texts :
    (tocItemsOf [⟨1, "Test", ""⟩, ⟨2, "Test", ""⟩]).map TocItem.id
        = ["test", "test"] ∧
    ¬ List.Pairwise (fun a b => a ≠ b)
        ((tocItemsOf [⟨1, "Test", ""⟩, ⟨2, "Test", ""⟩]).map TocItem.id) ∧
    generateTOC [⟨1, "Test", ""⟩, ⟨2, "Test", ""⟩] =
      [Node.mk ⟨"test", "Test", 1⟩ [Node.mk ⟨"test", "Test", 2⟩ []]] ∧
    (SrcCore.generateTOCStateful [] [⟨1, "Test", ""⟩, ⟨2, "Test", ""⟩]).1.map
        TocItem.id = ["test", "test"] := by
  exact ⟨by decide, by decide, rfl, by decide⟩

/-- C2. For every sequence of level-tagged headings, the forest returned
by `buildHierarchy` has every direct child at a strictly greater level
than its parent (recursively), and its pre-order traversal is exactly
the input sequence. -/
theorem claim_C2_hierarchy_levels_and_preorder (items : List TocItem) :
    ForestWF (buildHierarchy items) ∧
      preorderForest (buildHierarchy items) = items :=
  ⟨buildHierarchy_wf items, preorderForest_buildHierarchy items⟩

/-- C4. The claim asserts active `a` at scrollTop 450, `b` at 500 and
`null` at −50 for offsets `a:0, b:500, c:1200` and threshold 100.  The
code disagrees at 450 (b is eligible because 500 ≤ 450+100+… — namely
500 − 100 ≤ 450 — so the last-to-first scan stops at b) and at −50
(a is still eligible because −50 ≥ 0 − 100, so the result is `a`, not
`null`). -/
theorem claim_C4_spec_example_counterexample :
    ¬ (updateActiveHeading [("a", 0), ("b", 500), ("c", 1200)] 450 100
          = some "a" ∧
       updateActiveHeading [("a", 0), ("b", 500), ("c", 1200)] 500 100
          = some "b" ∧
       updateActiveHeading [("a", 0), ("b", 500), ("c", 1200)] (-50) 100
          = none) := by
  decide

/-- C4 (amended). With cached offsets `a:0, b:500, c:1200` and threshold
100, the recomputation yields `b` at scrollTop 450, `b` at 500 and `a`
at −50. -/
theorem claim_C4_amended_values :
    updateActiveHeading [("a", 0), ("b", 500), ("c", 1200)] 450 100
        = some "b" ∧
    updateActiveHeading [("a", 0), ("b", 500), ("c", 1200)] 500 100
        = some "b" ∧
    updateActiveHeading [("a", 0), ("b", 500), ("c", 1200)] (-50) 100
        = some "a" := by
  decide

/-- Helper for C5: two items, the second at a level not above the
first, build exactly two childless roots (the second item pops the
first off the stack). -/
theorem buildHierarchy_pair (a b : TocItem) (h : b.level ≤ a.level) :
    buildHierarchy [a, b] = [Node.mk a [], Node.mk b []] := by
  have e1 : stepTOC ([], []) a = ([], [(a, [])]) := rfl
  have e2 : stepTOC ([], [(a, [])]) b = ([Node.mk a []], [(b, [])]) := by
    simp only [stepTOC, popGE, if_pos h, sinkNode]
    rfl
  show flushStack (List.foldl stepTOC ([], []) [a, b]).1
      (List.foldl stepTOC ([], []) [a, b]).2 = _
  rw [List.foldl_cons, List.foldl_cons, List.foldl_nil, e1, e2]
  rfl

/-- C5. Fewer headings than the configured minimum (default 2) yield an
empty forest, and exactly two headings of equal level yield exactly the
two corresponding roots, each childless. -/
theorem claim_C5_minimum_suppression (hs : List RawHeading)
    (h1 h2 : RawHeading) :
    (hs.length < minHeadings → generateTOC hs = []) ∧
    (h1.level = h2.level →
      generateTOC [h1, h2] =
        (tocItemsOf [h1, h2]).map fun it => Node.mk it []) := by
  constructor
  · intro h
    simp [generateTOC, generateTOCWith, h]
  · intro heq
    have hlen : ¬ ([h1, h2] : List RawHeading).length < minHeadings := by
      simp [minHeadings]
    simp only [generateTOC, generateTOCWith, if_neg hlen]
    have ht : tocItemsOf [h1, h2] =
        [⟨if h1.preId = "" then generateHeadingId h1.text 0 else h1.preId,
            h1.text, h1.level⟩,
          ⟨if h2.preId = "" then generateHeadingId h2.text 1 else h2.preId,
            h2.text, h2.level⟩] := rfl
    rw [ht, buildHierarchy_pair _ _ (le_of_eq heq.symm)]
    rfl

/-- C5 witness: one heading suppresses the outline; two same-level
headings give two childless roots. -/
theorem claim_C5_minimum_suppression_witness :
    generateTOC [⟨1, "Solo", ""⟩] = [] ∧
    generateTOC [⟨2, "Alpha", ""⟩, ⟨2, "Beta", ""⟩] =
      [Node.mk ⟨"alpha", "Alpha", 2⟩ [], Node.mk ⟨"beta", "Beta", 2⟩ []] := by
  constructor
  · exact (claim_C5_minimum_suppression [⟨1, "Solo", ""⟩] ⟨1, "Solo", ""⟩
      ⟨1, "Solo", ""⟩).1 (by decide)
  · have h := (claim_C5_minimum_suppression [] ⟨2, "Alpha", ""⟩
      ⟨2, "Beta", ""⟩).2 rfl
    rw [h]; rfl

/-- C6. The claim asserts that re-running `generateTOC` on unchanged
content yields identical structure and ids.  On the cited `src/core`
variant this fails: the second run on the same instance consults the
first run's id list as its collision seen-set, so every id acquires a
numeric suffix. -/
theorem claim_C6_reuse_counterexample :
    (SrcCore.generateTOCStateful [] [⟨1, "Test", ""⟩, ⟨2, "Other", ""⟩]).1.map
        TocItem.id = ["test", "other"] ∧
    ((SrcCore.generateTOCStateful
        (SrcCore.generateTOCStateful []
          [⟨1, "Test", ""⟩, ⟨2, "Other", ""⟩]).2
        [⟨1, "Test", ""⟩, ⟨2, "Other", ""⟩]).1.map TocItem.id
      = ["test-1", "other-1"]) ∧
    (SrcCore.generateTOCStateful
        (SrcCore.generateTOCStateful []
          [⟨1, "Test", ""⟩, ⟨2, "Other", ""⟩]).2
        [⟨1, "Test", ""⟩, ⟨2, "Other", ""⟩]).1
      ≠ (SrcCore.generateTOCStateful []
          [⟨1, "Test", ""⟩, ⟨2, "Other", ""⟩]).1 := by
  exact ⟨by decide, by decide, by decide⟩

/-- C6 (amended). The tested generator keeps no per-pass id state on the
instance, so running `generateTOC` twice on unchanged content — the
second run starting from the state the first run left behind — returns
the identical forest, and the instance state is unchanged. -/
theorem claim_C6_amended_rerun_identical (st : GenState)
    (hs : List RawHeading) :
    (generateTOCRun (generateTOCRun st hs).2 hs).1
        = (generateTOCRun st hs).1 ∧
      (generateTOCRun st hs).2 = st :=
  ⟨rfl, rfl⟩

/-- C7. The claim asserts that an update of the active-highlight state
is emitted only when the computed id differs from the held one.  The
cited recomputation emits unconditionally: here a recomputation whose
result equals the previously held id (`a`) still reports an emission. -/
theorem claim_C7_unconditional_emission_counterexample :
    (spyRecompute [("a", 0)] 0 100 (some "a")).1 = some "a" ∧
    (spyRecompute [("a", 0)] 0 100 (some "a")).2 = true := by
  decide

/-- C7 (amended). The `setupScrollSpy` recomputation reapplies the
highlight state on every run, whatever the previously held id; the
claimed deduplication holds only in the `TableOfContents` component
variant, whose update runs `setActiveHeading` exactly when the computed
id differs from the held one. -/
theorem claim_C7_amended_dedup_location :
    (∀ (headings : List SpyHeading) (s t : Int) (cur : Option String),
      (spyRecompute headings s t cur).2 = true) ∧
    (∀ computed cur : Option String,
      ((componentActiveUpdate computed cur).2 = true → computed ≠ cur) ∧
      (computed = cur → componentActiveUpdate computed cur = (cur, false))) := by
  refine ⟨fun _ _ _ _ => rfl, fun computed cur => ⟨?_, ?_⟩⟩
  · intro h heq
    rw [componentActiveUpdate, if_pos heq] at h
    exact Bool.false_ne_true h
  · intro heq
    rw [componentActiveUpdate, if_pos heq]

/-- C7 witness: a concrete unconditional emission and a concrete
suppressed component update. -/
theorem claim_C7_amended_dedup_location_witness :
    (spyRecompute [("a", (0 : Int))] 0 100 none).2 = true ∧
    componentActiveUpdate (some "a") (some "a") = (some "a", false) :=
  ⟨claim_C7_amended_dedup_location.1 [("a", (0 : Int))] 0 100 none,
    (claim_C7_amended_dedup_location.2 (some "a") (some "a")).2 rfl⟩

/-- C8. The claim asserts that no recomputation fires after the cleanup
function runs.  The cleanup only removes the scroll listener: in the
trace scroll–detach–frame, the frame request made by the scroll event is
still pending at detachment and fires afterwards, running one
recomputation after the tracker was detached. -/
theorem claim_C8_pending_frame_counterexample :
    (spyRun ⟨true, false⟩ [SpyEvent.scroll, SpyEvent.detach]).1
        = ⟨false, true⟩ ∧
    (spyRun ⟨true, false⟩ [SpyEvent.scroll, SpyEvent.detach]).2 = 0 ∧
    (spyRun ⟨true, false⟩
        [SpyEvent.scroll, SpyEvent.detach, SpyEvent.frame]).2 = 1 := by
  decide

/-- C8 witness: from a detached state with a pending frame, any event
sequence fires at most one recomputation. -/
theorem spyRun_detached_bound_witness :
    (spyRun ⟨false, true⟩
        [SpyEvent.frame, SpyEvent.scroll, SpyEvent.frame]).2 ≤ 1 := by
  have h := spyRun_detached_bound
    [SpyEvent.frame, SpyEvent.scroll, SpyEvent.frame] ⟨false, true⟩ rfl
  simpa using h

/-- C9. The claim states that an id matches `heading-<n>` only when the
normalized candidate was empty or shorter than 2 characters.  The
heading text `heading-0` at source index 0 refutes it: its candidate is
`heading-0` itself (9 characters), yet the assigned id matches the
fallback shape. -/
theorem claim_C9_pattern_counterexample :
    generateHeadingId "heading-0" 0 = "heading-0" ∧
    (∃ n : Nat, generateHeadingId "heading-0" 0 = "heading-" ++ toString n) ∧
    ¬ (normalizeHeadingText "heading-0").length < 2 := by
  exact ⟨by decide, ⟨0, by decide⟩, by decide⟩

/-- C9 (amended). When the normalized candidate is empty or shorter than
2 characters the assigned id is exactly `heading-<sourceIndex>`; and an
id can match the `heading-<n>` shape only because of that fallback or
because the candidate itself already has that shape. -/
theorem claim_C9_amended_fallback (text : String) (index : Nat) :
    ((normalizeHeadingText text).length < 2 →
      generateHeadingId text index = "heading-" ++ toString index) ∧
    ((∃ n : Nat, generateHeadingId text index = "heading-" ++ toString n) →
      (normalizeHeadingText text).length < 2 ∨
        ∃ n : Nat, normalizeHeadingText text = "heading-" ++ toString n) := by
  constructor
  · intro h
    rw [generateHeadingId_eq, if_pos h]
  · intro h
    by_cases hlen : (normalizeHeadingText text).length < 2
    · exact Or.inl hlen
    · right
      rw [generateHeadingId_eq, if_neg hlen] at h
      exact h

/-- C9 witness: empty text falls back to the positional id. -/
theorem claim_C9_amended_fallback_witness :
    generateHeadingId "" 5 = "heading-" ++ toString 5 :=
  (claim_C9_amended_fallback "" 5).1 (by decide)

/-- C10. When the outline is generated (at least `minHeadings`
headings), a heading that already carries a non-empty id keeps it
verbatim as its TOC item id, and a slug `generateHeadingId(text, index)`
is assigned exactly to the headings with no pre-existing id. -/
theorem claim_C10_preexisting_ids (hs : List RawHeading) (i : Nat)
    (rh : RawHeading) (hlen : minHeadings ≤ hs.length)
    (hget : hs[i]? = some rh) :
    (rh.preId ≠ "" →
      ((preorderForest (generateTOC hs))[i]?).map TocItem.id
        = some rh.preId) ∧
    (rh.preId = "" →
      ((preorderForest (generateTOC hs))[i]?).map TocItem.id
        = some (generateHeadingId rh.text i)) := by
  have hne : ¬ hs.length < minHeadings := by omega
  have hpre : preorderForest (generateTOC hs) = tocItemsOf hs := by
    simp only [generateTOC, generateTOCWith, if_neg hne]
    exact preorderForest_buildHierarchy _
  have hitem : (tocItemsOf hs)[i]? = some
      { id := if rh.preId = "" then generateHeadingId rh.text i else rh.preId
        text := rh.text
        level := rh.level } := by
    simp [tocItemsOf, List.getElem?_map, List.getElem?_enum, hget]
  constructor
  · intro h
    rw [hpre, hitem]
    simp [if_neg h]
  · intro h
    rw [hpre, hitem]
    simp [if_pos h]

/-- C10 witness: a pre-existing id survives verbatim while its
id-less neighbour receives the generated slug. -/
theorem claim_C10_preexisting_ids_witness :
    ((preorderForest (generateTOC
        [⟨1, "Hello", "custom-id"⟩, ⟨2, "World", ""⟩]))[0]?).map TocItem.id
      = some "custom-id" ∧
    ((preorderForest (generateTOC
        [⟨1, "Hello", "custom-id"⟩, ⟨2, "World", ""⟩]))[1]?).map TocItem.id
      = some (generateHeadingId "World" 1) := by
  constructor
  · exact (claim_C10_preexisting_ids
      [⟨1, "Hello", "custom-id"⟩, ⟨2, "World", ""⟩] 0 ⟨1, "Hello", "custom-id"⟩
      (by decide) (by decide)).1 (by decide)
  · exact (claim_C10_preexisting_ids
      [⟨1, "Hello", "custom-id"⟩, ⟨2, "World", ""⟩] 1 ⟨2, "World", ""⟩
      (by decide) (by decide)).2 rfl

/-- C3 witness: at offsets `a:0, b:500, c:1200`, scroll 450 and
threshold 100, the spec-side maximal eligible heading is `b`. -/
theorem updateActiveHeading_spec_witness :
    ∃ h ∈ ([("a", (0 : Int)), ("b", 500), ("c", 1200)] : List SpyHeading),
      h.1 = "b" ∧ h.2 ≤ 450 + 100 ∧
        ∀ h' ∈ ([("a", (0 : Int)), ("b", 500), ("c", 1200)] :
            List SpyHeading),
          h'.2 ≤ 450 + 100 → h'.2 ≤ h.2 :=
  (updateActiveHeading_spec [("a", 0), ("b", 500), ("c", 1200)] 450 100
    (by decide)).1 "b" (by decide)

end Md2Page
